import Mathlib

/-!
Verification of the rooted-tree SPR operations of `src/tree/rtree_operations.c`
(pll-modules).  The pointer graph of `pll_rtree_t` nodes is embedded as a heap
`Nat → RNode`: each node id maps to a record of its `parent`, `left` and `right`
pointer fields (`Option Nat`, `none` = NULL).  A `Slot` is the address of a
child-pointer cell (`&parent->left` / `&parent->right`), exactly the
`pll_rtree_t **` values the C code passes around.  Every mutation of the C code
becomes an explicit heap update, performed in the same order as the source;
reads re-read the current heap exactly where the C code re-reads a field.
Undefined behaviour (dereferencing a NULL node or slot pointer, a failing
`assert`) is a distinguished `crash` outcome.  Loops and recursions whose
termination depends on the tree being acyclic take an explicit fuel argument;
with enough fuel they agree with the C code.
-/

/-- One `pll_rtree_t` node: its three pointer fields (NULL = `none`). -/
structure RNode where
  parent : Option Nat
  left   : Option Nat
  right  : Option Nat
deriving DecidableEq

/-- The pointer heap: node id ↦ node record. -/
abbrev RHeap := Nat → RNode

/-- Address of a child-pointer cell: `&(h p).left` or `&(h p).right`.
This models the `pll_rtree_t **` self/sister pointers of the C code. -/
inductive Slot where
  | L (p : Nat)
  | R (p : Nat)
deriving DecidableEq

/-- Read through a slot (`*slot`). -/
def readSlot (h : RHeap) : Slot → Option Nat
  | .L p => (h p).left
  | .R p => (h p).right

/-- Write through a slot (`*slot = v`). -/
def writeSlot (h : RHeap) : Slot → Option Nat → RHeap
  | .L p, v => fun x => if x = p then { h p with left := v } else h x
  | .R p, v => fun x => if x = p then { h p with right := v } else h x

/-- Assign a node's parent field (`n->parent = v`). -/
def setParent (h : RHeap) (n : Nat) (v : Option Nat) : RHeap :=
  fun x => if x = n then { h n with parent := v } else h x

/-- Error kinds set through `pllmod_set_error` on the failure paths. -/
inductive TreeErr where
  | invalidTree   -- PLLMOD_TREE_ERROR_INVALID_TREE
  | invalidNode   -- PLLMOD_TREE_ERROR_SPR_INVALID_NODE
  | invalidRange  -- PLLMOD_ERROR_INVALID_RANGE
deriving DecidableEq

/-- `pllmod_rtree_get_sister`: finds the self and sister child-pointer cells of
`node` on its parent.  Returns the pair the C code stores through the `self`
and `sister` out-parameters; `.error` is the `PLL_FAILURE` path. -/
def pllmod_rtree_get_sister (h : RHeap) (node : Nat) :
    Except TreeErr (Option Slot × Option Slot) :=
  match (h node).parent with
  | none => .ok (none, none)
  | some p =>
    if (h p).left = some node then .ok (some (.L p), some (.R p))
    else if (h p).right = some node then .ok (some (.R p), some (.L p))
    else .error .invalidTree

/-- Result of `pllmod_rtree_prune`: `ok` is a non-NULL return with the final
heap, `fail` is a NULL return with the error set (heap at that moment),
`retNull` is a NULL return with no error set (only reachable on corrupt
input), `crash` is undefined behaviour / a failing `assert`. -/
inductive PruneRes where
  | ok (connected : Nat) (h : RHeap)
  | retNull (h : RHeap)
  | fail (e : TreeErr) (h : RHeap)
  | crash

/-- Returned pointer of a prune (`none` = NULL). -/
def PruneRes.retOf : PruneRes → Option Nat
  | .ok c _ => some c
  | _ => none

/-- Heap after a prune (junk on crash). -/
def PruneRes.heapOf : PruneRes → RHeap
  | .ok _ h => h
  | .retNull h => h
  | .fail _ h => h
  | .crash => fun _ => ⟨none, none, none⟩

/-- Node record at `x` after a prune. -/
def PruneRes.heapAt (r : PruneRes) (x : Nat) : RNode := r.heapOf x

/-- `pllmod_rtree_prune`: detaches the subtree rooted at `node`, splicing its
sister into the vacated slot.  Statement-by-statement translation of lines
64–122 of `rtree_operations.c`; heap updates happen in source order and every
pointer field is re-read from the current heap where the C code re-reads it. -/
def pllmod_rtree_prune (h : RHeap) (node : Nat) : PruneRes :=
  match (h node).parent with
  | none => .fail .invalidNode h          -- "Attempting to prune the root node"
  | some par =>
    match pllmod_rtree_get_sister h node with
    | .error e => .fail e h               -- return and spread error
    | .ok (_, none) => .crash             -- assert (self_ptr && sister_ptr)
    | .ok (_, some sisterSlot) =>
      match (h par).parent with
      | some g =>                         -- connected_node = node->parent->parent
        match pllmod_rtree_get_sister h par with
        | .error e => .fail e h           -- return and spread error
        | .ok (none, _) => .crash         -- assert (parent_ptr)
        | .ok (some parentSlot, _) =>
          let h1 := writeSlot h parentSlot (readSlot h sisterSlot)  -- *parent_ptr = *sister_ptr
          match readSlot h1 sisterSlot with
          | none => .crash                -- (*sister_ptr)->parent with *sister_ptr == NULL
          | some sis =>
            match (h1 node).parent with
            | none => .crash              -- node->parent->parent with node->parent == NULL
            | some np =>
              let h2 := setParent h1 sis ((h1 np).parent)  -- (*sister_ptr)->parent = node->parent->parent
              let h3 := writeSlot h2 sisterSlot none       -- *sister_ptr = NULL
              match (h3 node).parent with
              | none => .crash
              | some np2 =>
                let h4 := setParent h3 np2 none            -- node->parent->parent = NULL
                .ok g h4
      | none =>                           -- re-root
        match readSlot h sisterSlot with  -- connected_node = *sister_ptr
        | some sis => .ok sis (writeSlot h sisterSlot none)
        | none => .retNull (writeSlot h sisterSlot none)

/-- Result of `pllmod_rtree_regraft`. -/
inductive RegraftRes where
  | ok (h : RHeap)
  | fail (e : TreeErr) (h : RHeap)
  | crash

/-- True iff the regraft returned `PLL_SUCCESS`. -/
def RegraftRes.isOk : RegraftRes → Bool
  | .ok _ => true
  | _ => false

/-- Error of a failed regraft. -/
def RegraftRes.errOf : RegraftRes → Option TreeErr
  | .fail e _ => some e
  | _ => none

/-- Heap after a regraft (junk on crash). -/
def RegraftRes.heapOf : RegraftRes → RHeap
  | .ok h => h
  | .fail _ h => h
  | .crash => fun _ => ⟨none, none, none⟩

/-- Node record at `x` after a regraft. -/
def RegraftRes.heapAt (r : RegraftRes) (x : Nat) : RNode := r.heapOf x

/-- `pllmod_rtree_regraft`: reinserts the detached parent of `node` onto the
edge above `tree`.  Translation of lines 124–169.  Note three traits of the
source that the model reproduces exactly: `edge_from_parent` is only assigned
when `tree->parent` is non-NULL (the `&&` short-circuit at line 140);
`edge_to_child` is the *sister* slot of `tree` (line 149); and the guard at
line 162 tests `tree->parent` *after* line 160 reassigned it, so the
`*edge_from_parent` write is always reached (a NULL-slot dereference when
`tree` was the root). -/
def pllmod_rtree_regraft (h : RHeap) (node tree : Nat) : RegraftRes :=
  match (h node).parent with
  | none => .fail .invalidNode h      -- "regraft a node without dettached parent"
  | some p =>
    match (h p).parent with
    | some _ => .fail .invalidNode h
    | none =>
      -- parent_node = node->parent
      match (match (h tree).parent with
             | none => (Except.ok none : Except TreeErr (Option Slot))
             | some _ =>
               match pllmod_rtree_get_sister h tree with
               | .error e => .error e
               | .ok (s, _) => .ok s) with
      | .error e => .fail e h          -- return and spread error
      | .ok edgeFromParent =>
        match pllmod_rtree_get_sister h tree with
        | .error e => .fail e h        -- return and spread error
        | .ok (_, edgeToChild) =>
          let h1 := setParent h p ((h tree).parent)   -- parent_node->parent = tree->parent
          let h2 := setParent h1 tree (some p)        -- tree->parent = parent_node
          match (h2 tree).parent with                 -- if (tree->parent)
          | some _ =>
            match edgeFromParent with
            | none => .crash                          -- *edge_from_parent with NULL slot
            | some efp =>
              let h3 := writeSlot h2 efp (some p)     -- *edge_from_parent = parent_node
              match edgeToChild with
              | none => .crash                        -- *edge_to_child with NULL slot
              | some etc2 => .ok (writeSlot h3 etc2 (some tree))  -- *edge_to_child = tree
          | none =>
            match edgeToChild with
            | none => .crash
            | some etc2 => .ok (writeSlot h2 etc2 (some tree))

/-- Rearrangement kinds of `pll_tree_rollback_t`. -/
inductive MoveKind where
  | SPR
  | NNI
  | TBR
deriving DecidableEq

/-- The fields of `pll_tree_rollback_t` that `pllmod_rtree_spr` fills in
(the branch-length fields are declared but never populated by the source, so
they are not modelled). -/
structure TreeRollback where
  rearrange   : MoveKind
  rooted      : Bool
  pruneEdge   : Nat
  regraftEdge : Option Nat
deriving DecidableEq

/-- Result of `pllmod_rtree_spr`; `rollback` is the content written through
`rollback_info` (written before the tree is mutated, hence also present on
failures and crashes that occur after the sister lookup). -/
inductive SprRes where
  | ok (root : Option Nat) (rollback : Option TreeRollback) (h : RHeap)
  | fail (e : TreeErr) (rollback : Option TreeRollback) (h : RHeap)
  | crash (rollback : Option TreeRollback)

/-- True iff the SPR returned `PLL_SUCCESS`. -/
def SprRes.isOk : SprRes → Bool
  | .ok _ _ _ => true
  | _ => false

/-- Error of a failed SPR. -/
def SprRes.errOf : SprRes → Option TreeErr
  | .fail e _ _ => some e
  | _ => none

/-- Rollback record written through `rollback_info` (none = not written). -/
def SprRes.rbOf : SprRes → Option TreeRollback
  | .ok _ rb _ => rb
  | .fail _ rb _ => rb
  | .crash rb => rb

/-- Heap left behind by the SPR (junk on crash). -/
def SprRes.heapOf : SprRes → RHeap
  | .ok _ _ h => h
  | .fail _ _ h => h
  | .crash _ => fun _ => ⟨none, none, none⟩

/-- Node record at `x` after an SPR. -/
def SprRes.heapAt (r : SprRes) (x : Nat) : RNode := r.heapOf x

/-- The `while (root && (*root)->parent) *root = (*root)->parent;` walk,
with fuel bounding the number of steps (enough fuel = the C loop on an
acyclic heap). -/
def rootUpWalk (h : RHeap) : Nat → Nat → Nat
  | 0, r => r
  | fuel + 1, r =>
    match (h r).parent with
    | none => r
    | some p => rootUpWalk h fuel p

/-- `pllmod_rtree_spr` (lines 181–235): sister lookup, rollback bookkeeping,
prune, then `pllmod_rtree_regraft(p_node->parent, r_tree)` — note the source
passes `p_node->parent` (the detached fragment node itself, whose parent was
just cleared by the prune), not `p_node`.  `root` is the value behind the
caller's root handle (`none` = NULL handle), `wantRollback` models a non-NULL
`rollback_info`. -/
def pllmod_rtree_spr (h : RHeap) (pNode rTree : Nat) (root : Option Nat)
    (wantRollback : Bool) (fuel : Nat) : SprRes :=
  match pllmod_rtree_get_sister h pNode with
  | .error e => .fail e none h          -- return and spread error
  | .ok (_, none) => .crash none        -- assert (self_ptr && sister_ptr)
  | .ok (_, some sisterSlot) =>
    let rollback : Option TreeRollback :=
      if wantRollback then
        some { rearrange := MoveKind.SPR, rooted := true,
               pruneEdge := pNode, regraftEdge := readSlot h sisterSlot }
      else none
    match pllmod_rtree_prune h pNode with
    | .fail e _ => .fail e rollback h   -- return and spread error
    | .retNull _ => .crash rollback     -- assert(pll_errno) with no error set
    | .crash => .crash rollback
    | .ok _ h1 =>
      match (h1 pNode).parent with
      | none => .crash rollback         -- regraft would dereference a NULL node
      | some frag =>
        match pllmod_rtree_regraft h1 frag rTree with
        | .fail e h2 => .fail e rollback h2
        | .crash => .crash rollback
        | .ok h2 => .ok (root.map (rootUpWalk h2 fuel)) rollback h2

/-- Result of `pllmod_rtree_nodes_at_node_dist`: the emitted node list (the
prefix of `outbuffer` actually written, in write order). -/
inductive DistRes where
  | ok (buf : List Nat)
  | fail (e : TreeErr)
  | fuelOut
  | crash
deriving DecidableEq

/-- `rtree_nodes_at_node_dist_down` (lines 237–263): bounded descent emitting
a node whenever the decremented `min_distance` is negative, stopping when
`max_distance` is negative or at a node without two children.  `fuel` bounds
the recursion depth (the C recursion is already cut by `max_distance`, so any
fuel above `max_distance` reproduces it). -/
def rtree_nodes_at_node_dist_down (h : RHeap) :
    Nat → Nat → List Nat → Int → Int → List Nat
  | fuel, node, buf, minD, maxD =>
    if maxD < 0 then buf
    else
      let buf1 := if minD < 0 then buf ++ [node] else buf
      match fuel, (h node).left, (h node).right with
      | fuel' + 1, some l, some r =>
        rtree_nodes_at_node_dist_down h fuel' r
          (rtree_nodes_at_node_dist_down h fuel' l buf1 (minD - 1) (maxD - 1))
          (minD - 1) (maxD - 1)
      | _, _, _ => buf1

/-- The `while (current_root->parent)` ascent of
`pllmod_rtree_nodes_at_node_dist` (lines 284–309): decrement both bounds,
step to the parent, emit it when the decremented `min_distance` is negative
(the source checks no `max_distance` bound here), then descend into the
sister subtree.  `fuel` bounds the number of ascent steps. -/
def nodes_at_node_dist_loop (h : RHeap) :
    Nat → Nat → List Nat → Int → Int → DistRes
  | fuel, cur, buf, minD, maxD =>
    match (h cur).parent with
    | none => .ok buf
    | some par =>
      match fuel with
      | 0 => .fuelOut
      | fuel' + 1 =>
        match pllmod_rtree_get_sister h cur with
        | .error e => .fail e           -- return and spread error
        | .ok (_, none) => .crash       -- unreachable: parent is non-NULL
        | .ok (_, some sisterSlot) =>
          let minD' := minD - 1
          let maxD' := maxD - 1
          let buf1 := if minD' < 0 then buf ++ [par] else buf
          match readSlot h sisterSlot with
          | some sis =>
            nodes_at_node_dist_loop h fuel' par
              (rtree_nodes_at_node_dist_down h fuel' sis buf1 (minD' - 1) (maxD' - 1))
              minD' maxD'
          | none =>
            -- *sister_ptr == NULL: the down call dereferences it unless
            -- its max_distance argument is already negative
            if maxD' - 1 < 0 then nodes_at_node_dist_loop h fuel' par buf1 minD' maxD'
            else .crash

/-- `pllmod_rtree_nodes_at_node_dist` (lines 265–313): range check, then the
ascent loop starting from `node` with an empty buffer. -/
def pllmod_rtree_nodes_at_node_dist (h : RHeap) (fuel node : Nat)
    (minD maxD : Int) : DistRes :=
  if maxD < minD then .fail .invalidRange
  else nodes_at_node_dist_loop h fuel node [] minD maxD

/-- Upward reachability with fuel: `reachesUp h fuel x t` is true iff walking
parent links from `x` for at most `fuel` steps visits `t`.  After a prune the
detached fragment is exactly the set of nodes from which the fragment node is
upward-reachable. -/
def reachesUp (h : RHeap) : Nat → Nat → Nat → Bool
  | 0, x, t => x == t
  | fuel + 1, x, t =>
    x == t ||
      (match (h x).parent with
       | some p => reachesUp h fuel p t
       | none => false)

/-- The sibling of `n` under `par` as the code finds it: the content of the
other child cell of `par` (left-first, as `pllmod_rtree_get_sister` checks). -/
def sibValue (h : RHeap) (n par : Nat) : Option Nat :=
  if (h par).left = some n then (h par).right else (h par).left

/-- Well-formedness of the finite tree on node set `ns` with a depth
certificate, packaging the spec's invariants: closure of the pointer graph
over `ns`; I1 (each non-root node fills exactly one child cell of its parent,
and the parent link is one level up in `depth`); I2 plus backlinks (zero or
two children, each child's parent link pointing back).  Decidable, so concrete
trees check by `decide`. -/
def WfTree (h : RHeap) (ns : List Nat) (depth : Nat → Nat) : Prop :=
  ∀ n ∈ ns,
    ((h n).parent = none ∨
      ∃ p ∈ ns, (h n).parent = some p ∧ depth n = depth p + 1 ∧
        (((h p).left = some n ∧ ¬ (h p).right = some n) ∨
         ((h p).right = some n ∧ ¬ (h p).left = some n))) ∧
    (((h n).left = none ∧ (h n).right = none) ∨
      ((∃ c ∈ ns, (h n).left = some c ∧ (h c).parent = some n) ∧
       (∃ c ∈ ns, (h n).right = some c ∧ (h c).parent = some n)))

instance (h : RHeap) (ns : List Nat) (depth : Nat → Nat) :
    Decidable (WfTree h ns depth) := by
  unfold WfTree; infer_instance

/-- Three-node tree: root 0 with leaf children 1 and 2. -/
def h3 : RHeap := fun n =>
  if n = 0 then ⟨none, some 1, some 2⟩
  else if n = 1 then ⟨some 0, none, none⟩
  else if n = 2 then ⟨some 0, none, none⟩
  else ⟨none, none, none⟩

/-- Node set of `h3`. -/
def ns3 : List Nat := [0, 1, 2]

/-- Depth certificate for `h3`. -/
def depth3 : Nat → Nat := fun n => if n = 0 then 0 else 1

/-- Five-node tree of the spec's SPR scenario: root 0 with children A = 1 and
B = 2; B internal with children C = 3 and D = 4. -/
def h5 : RHeap := fun n =>
  if n = 0 then ⟨none, some 1, some 2⟩
  else if n = 1 then ⟨some 0, none, none⟩
  else if n = 2 then ⟨some 0, some 3, some 4⟩
  else if n = 3 then ⟨some 2, none, none⟩
  else if n = 4 then ⟨some 2, none, none⟩
  else ⟨none, none, none⟩

/-- Node set of `h5`. -/
def ns5 : List Nat := [0, 1, 2, 3, 4]

/-- Depth certificate for `h5`. -/
def depth5 : Nat → Nat := fun n =>
  if n = 0 then 0 else if n = 1 ∨ n = 2 then 1 else 2

/-- Regraft scenario: intact tree root 0 with leaf children 1 and 2, plus a
properly detached fragment node 3 whose single child is 4. -/
def hC2 : RHeap := fun n =>
  if n = 0 then ⟨none, some 1, some 2⟩
  else if n = 1 then ⟨some 0, none, none⟩
  else if n = 2 then ⟨some 0, none, none⟩
  else if n = 3 then ⟨none, some 4, none⟩
  else if n = 4 then ⟨some 3, none, none⟩
  else ⟨none, none, none⟩

/-- Regraft-onto-root scenario: single-node target tree 0 (a root), plus a
properly detached fragment node 1 whose single child is 2. -/
def hC6 : RHeap := fun n =>
  if n = 0 then ⟨none, none, none⟩
  else if n = 1 then ⟨none, some 2, none⟩
  else if n = 2 then ⟨some 1, none, none⟩
  else ⟨none, none, none⟩


/-- C1: the spec's 5-node SPR scenario (prune C = 3, regraft onto A = 1, root
handle at 0) is claimed to succeed and produce the subdivided tree.  On the
source it fails: `pllmod_rtree_spr` hands `p_node->parent` — the detached
fragment node, whose parent was just cleared by the prune — to
`pllmod_rtree_regraft`, whose precondition (`node->parent` non-NULL) then
always rejects it with the invalid-node error.  The tree is left in the
half-applied pruned state: node 2 (B) is detached with single child 3 (C),
and the root's B-slot already holds D = 4. -/
theorem spr_five_node_tree_fails :
    (pllmod_rtree_spr h5 3 1 (some 0) false 10).errOf = some TreeErr.invalidNode ∧
    (pllmod_rtree_spr h5 3 1 (some 0) false 10).isOk = false ∧
    (pllmod_rtree_spr h5 3 1 (some 0) false 10).heapAt 2 = ⟨none, some 3, none⟩ ∧
    (pllmod_rtree_spr h5 3 1 (some 0) false 10).heapAt 0 = ⟨none, some 1, some 4⟩ ∧
    (pllmod_rtree_spr h5 3 1 (some 0) false 10).heapAt 1 = ⟨some 0, none, none⟩ :=
  ⟨rfl, rfl, rfl, rfl, rfl⟩

/-- C2: regrafting node 4 (child of detached fragment node 3) onto target edge
node 1 (child of root 0, sibling 2) returns success, but the resulting heap
violates the claim: the fragment node 3 keeps an empty second child slot
(4 and 1 are not both its children), the write `*edge_to_child = tree` lands
in the root's *sister* cell — overwriting child 2 with 1 — and Invariant I1
fails for nodes 1 (parent 3 but not 3's child) and 2 (parent 0 but not 0's
child). -/
theorem regraft_breaks_invariants :
    (pllmod_rtree_regraft hC2 4 1).isOk = true ∧
    (pllmod_rtree_regraft hC2 4 1).heapAt 3 = ⟨some 0, some 4, none⟩ ∧
    (pllmod_rtree_regraft hC2 4 1).heapAt 0 = ⟨none, some 3, some 1⟩ ∧
    (pllmod_rtree_regraft hC2 4 1).heapAt 1 = ⟨some 3, none, none⟩ ∧
    (pllmod_rtree_regraft hC2 4 1).heapAt 2 = ⟨some 0, none, none⟩ :=
  ⟨rfl, rfl, rfl, rfl, rfl⟩

/-- C4: on the 3-node tree, `nodes_at_distance(1, 0, 0)` is claimed to emit
exactly the reference node 1; the source instead emits the parent 0 (the
ascent loop decrements `min_distance` before testing it and never emits the
starting node), so the buffer is `[0]`, not `[1]`. -/
theorem nodes_at_dist_zero_emits_parent :
    pllmod_rtree_nodes_at_node_dist h3 5 1 0 0 = DistRes.ok [0] ∧
    pllmod_rtree_nodes_at_node_dist h3 5 1 0 0 ≠ DistRes.ok [1] :=
  ⟨rfl, by decide⟩

/-- C5: round-trip on the 5-node tree: prune node 3 (its fragment node is 2,
former sibling 4), then regraft node 3 back onto the edge above 4 — the exact
edge the fragment was pruned from.  The regraft succeeds but the result is
not the original tree: the root's other-child cell is overwritten with 4
(orphaning 1), and the fragment node 2 never gets 4 back as its second
child. -/
theorem prune_regraft_roundtrip_fails :
    (pllmod_rtree_prune h5 3).retOf = some 0 ∧
    (pllmod_rtree_regraft (pllmod_rtree_prune h5 3).heapOf 3 4).isOk = true ∧
    (pllmod_rtree_regraft (pllmod_rtree_prune h5 3).heapOf 3 4).heapAt 0 =
      ⟨none, some 4, some 2⟩ ∧
    h5 0 = ⟨none, some 1, some 2⟩ ∧
    (pllmod_rtree_regraft (pllmod_rtree_prune h5 3).heapOf 3 4).heapAt 2 =
      ⟨some 0, some 3, none⟩ ∧
    h5 2 = ⟨some 0, some 3, some 4⟩ :=
  ⟨rfl, rfl, rfl, rfl, rfl, rfl⟩

/-- C6: regrafting node 2 (child of detached fragment node 1) onto a target
that is the tree's root (node 0, no parent) is claimed to succeed with no
parent-side slot rewrite.  The source instead dereferences NULL slot
pointers: the guard `if (tree->parent)` reads the field *after* it was
reassigned to the fragment node, so the `*edge_from_parent` write is reached
with `edge_from_parent == NULL` (and `edge_to_child` is NULL too). -/
theorem regraft_onto_root_crashes :
    pllmod_rtree_regraft hC6 2 0 = RegraftRes.crash :=
  rfl

/-- C3 counterexample: pruning node 1 whose parent 0 is the root.  The prune
succeeds returning the former sibling 2, but the returned node keeps its
stale parent pointer to the fragment node 0 — a reference into the pruned
fragment (0 itself, trivially upward-reachable from 0), contradicting the
claim's "in both cases the returned node has no reference into the pruned
fragment". -/
theorem prune_root_case_dangling_ref :
    (pllmod_rtree_prune h3 1).retOf = some 2 ∧
    ((pllmod_rtree_prune h3 1).heapAt 2).parent = some 0 ∧
    ((pllmod_rtree_prune h3 1).heapAt 0).parent = none ∧
    ((pllmod_rtree_prune h3 1).heapAt 0).left = some 1 ∧
    ((pllmod_rtree_prune h3 1).heapAt 0).right = none ∧
    reachesUp (pllmod_rtree_prune h3 1).heapOf 0 0 0 = true :=
  ⟨rfl, rfl, rfl, rfl, rfl, rfl⟩

theorem writeSlot_L_apply (h : RHeap) (p : Nat) (v : Option Nat) (x : Nat) :
    writeSlot h (.L p) v x = if x = p then { h p with left := v } else h x := rfl

theorem writeSlot_R_apply (h : RHeap) (p : Nat) (v : Option Nat) (x : Nat) :
    writeSlot h (.R p) v x = if x = p then { h p with right := v } else h x := rfl

theorem setParent_apply (h : RHeap) (n : Nat) (v : Option Nat) (x : Nat) :
    setParent h n v x = if x = n then { h n with parent := v } else h x := rfl

theorem writeSlot_parent (h : RHeap) (sl : Slot) (v : Option Nat) (x : Nat) :
    ((writeSlot h sl v) x).parent = (h x).parent := by
  cases sl with
  | L p =>
    rw [writeSlot_L_apply]
    by_cases hx : x = p
    · subst hx; simp
    · simp [hx]
  | R p =>
    rw [writeSlot_R_apply]
    by_cases hx : x = p
    · subst hx; simp
    · simp [hx]

theorem setParent_left (h : RHeap) (n : Nat) (v : Option Nat) (x : Nat) :
    ((setParent h n v) x).left = (h x).left := by
  rw [setParent_apply]
  by_cases hx : x = n
  · subst hx; simp
  · simp [hx]

theorem setParent_right (h : RHeap) (n : Nat) (v : Option Nat) (x : Nat) :
    ((setParent h n v) x).right = (h x).right := by
  rw [setParent_apply]
  by_cases hx : x = n
  · subst hx; simp
  · simp [hx]

theorem setParent_parent_same (h : RHeap) (n : Nat) (v : Option Nat) :
    ((setParent h n v) n).parent = v := by
  rw [setParent_apply]; simp

theorem setParent_parent_other (h : RHeap) (n : Nat) (v : Option Nat) (x : Nat)
    (hx : x ≠ n) : ((setParent h n v) x).parent = (h x).parent := by
  rw [setParent_apply]; simp [hx]

theorem readSlot_writeSlot_same (h : RHeap) (sl : Slot) (v : Option Nat) :
    readSlot (writeSlot h sl v) sl = v := by
  cases sl with
  | L p => show ((writeSlot h (.L p) v) p).left = v; rw [writeSlot_L_apply]; simp
  | R p => show ((writeSlot h (.R p) v) p).right = v; rw [writeSlot_R_apply]; simp

theorem WfTree.parent_facts {h : RHeap} {ns : List Nat} {depth : Nat → Nat}
    (wf : WfTree h ns depth) {n p : Nat} (hn : n ∈ ns)
    (hp : (h n).parent = some p) :
    p ∈ ns ∧ depth n = depth p + 1 ∧
      (((h p).left = some n ∧ ¬ (h p).right = some n) ∨
       ((h p).right = some n ∧ ¬ (h p).left = some n)) := by
  rcases (wf n hn).1 with hnone | ⟨q, hq, hpq, hd, hside⟩
  · simp [hp] at hnone
  · rw [hp] at hpq
    injection hpq with he
    subst he
    exact ⟨hq, hd, hside⟩

theorem WfTree.left_facts {h : RHeap} {ns : List Nat} {depth : Nat → Nat}
    (wf : WfTree h ns depth) {n c : Nat} (hn : n ∈ ns)
    (hc : (h n).left = some c) :
    c ∈ ns ∧ (h c).parent = some n ∧
      ∃ c2, c2 ∈ ns ∧ (h n).right = some c2 ∧ (h c2).parent = some n := by
  rcases (wf n hn).2 with ⟨hl, _⟩ | ⟨⟨c1, hc1, hcl, hcp⟩, ⟨c2, hc2, hcr, hcp2⟩⟩
  · simp [hc] at hl
  · rw [hc] at hcl
    injection hcl with he
    subst he
    exact ⟨hc1, hcp, c2, hc2, hcr, hcp2⟩

theorem WfTree.right_facts {h : RHeap} {ns : List Nat} {depth : Nat → Nat}
    (wf : WfTree h ns depth) {n c : Nat} (hn : n ∈ ns)
    (hc : (h n).right = some c) :
    c ∈ ns ∧ (h c).parent = some n ∧
      ∃ c2, c2 ∈ ns ∧ (h n).left = some c2 ∧ (h c2).parent = some n := by
  rcases (wf n hn).2 with ⟨_, hr⟩ | ⟨⟨c1, hc1, hcl, hcp⟩, ⟨c2, hc2, hcr, hcp2⟩⟩
  · simp [hc] at hr
  · rw [hc] at hcr
    injection hcr with he
    subst he
    exact ⟨hc2, hcp2, c1, hc1, hcl, hcp⟩

theorem get_sister_root {h : RHeap} {n : Nat} (hp : (h n).parent = none) :
    pllmod_rtree_get_sister h n = .ok (none, none) := by
  unfold pllmod_rtree_get_sister
  rw [hp]

theorem get_sister_left {h : RHeap} {n par : Nat} (hp : (h n).parent = some par)
    (hl : (h par).left = some n) :
    pllmod_rtree_get_sister h n = .ok (some (.L par), some (.R par)) := by
  unfold pllmod_rtree_get_sister
  rw [hp]
  simp [hl]

theorem get_sister_right {h : RHeap} {n par : Nat} (hp : (h n).parent = some par)
    (hr : (h par).right = some n) (hnl : ¬ (h par).left = some n) :
    pllmod_rtree_get_sister h n = .ok (some (.R par), some (.L par)) := by
  unfold pllmod_rtree_get_sister
  rw [hp]
  simp [hnl, hr]

/-- C7: for a node with a parent whose child cell actually references it (the
consistency `pllmod_rtree_get_sister` itself checks), the call succeeds, the
self slot dereferences to the node and the sister slot is the parent's other
child cell (its dereference is the sibling); for a parentless node both slots
are absent and the call still succeeds. -/
theorem get_sister_spec (h : RHeap) (n : Nat) :
    ((h n).parent = none → pllmod_rtree_get_sister h n = .ok (none, none)) ∧
    (∀ par, (h n).parent = some par →
      ((h par).left = some n ∨ (h par).right = some n) →
      ∃ sf ss, pllmod_rtree_get_sister h n = .ok (some sf, some ss) ∧
        readSlot h sf = some n ∧
        ((sf = Slot.L par ∧ ss = Slot.R par ∧ readSlot h ss = (h par).right) ∨
         (sf = Slot.R par ∧ ss = Slot.L par ∧ readSlot h ss = (h par).left))) := by
  constructor
  · intro hp
    exact get_sister_root hp
  · intro par hp hchild
    by_cases hl : (h par).left = some n
    · exact ⟨.L par, .R par, get_sister_left hp hl, hl, Or.inl ⟨rfl, rfl, rfl⟩⟩
    · have hr : (h par).right = some n := hchild.resolve_left hl
      exact ⟨.R par, .L par, get_sister_right hp hr hl, hr, Or.inr ⟨rfl, rfl, rfl⟩⟩

/-- Witness for C7 on the 3-node tree at node 1. -/
theorem get_sister_spec_witness :
    ∃ sf ss, pllmod_rtree_get_sister h3 1 = .ok (some sf, some ss) ∧
      readSlot h3 sf = some 1 ∧
      ((sf = Slot.L 0 ∧ ss = Slot.R 0 ∧ readSlot h3 ss = (h3 0).right) ∨
       (sf = Slot.R 0 ∧ ss = Slot.L 0 ∧ readSlot h3 ss = (h3 0).left)) :=
  (get_sister_spec h3 1).2 0 rfl (Or.inl rfl)

theorem spr_writes_rollback {h : RHeap} {pN : Nat} (rT : Nat) (root : Option Nat)
    (fuel : Nat) {selfS : Option Slot} {sS : Slot}
    (hgs : pllmod_rtree_get_sister h pN = .ok (selfS, some sS)) :
    (pllmod_rtree_spr h pN rT root true fuel).rbOf =
      some ⟨MoveKind.SPR, true, pN, readSlot h sS⟩ := by
  unfold pllmod_rtree_spr
  rw [hgs]
  cases hpr : pllmod_rtree_prune h pN with
  | fail e h' => simp [SprRes.rbOf]
  | retNull h' => simp [SprRes.rbOf]
  | crash => simp [SprRes.rbOf]
  | ok c h1 =>
    cases hf : (h1 pN).parent with
    | none => simp [SprRes.rbOf, hf]
    | some frag =>
      cases hr : pllmod_rtree_regraft h1 frag rT <;>
        simp [SprRes.rbOf, hf, hr]

/-- C9: whenever `rollback_info` is provided and the initial sister lookup on
the prune node succeeds, the rollback record holds move kind SPR, the rooted
flag, the prune node, and the prune node's pre-move sibling — all values
taken from the heap as it was before any mutation. -/
theorem spr_records_rollback (h : RHeap) (pN rT : Nat) (root : Option Nat)
    (fuel : Nat) (par : Nat) (hp : (h pN).parent = some par)
    (hchild : (h par).left = some pN ∨ (h par).right = some pN) :
    ∃ sib, (pllmod_rtree_spr h pN rT root true fuel).rbOf =
        some ⟨MoveKind.SPR, true, pN, sib⟩ ∧
      ((h par).left = some pN → sib = (h par).right) ∧
      (¬ (h par).left = some pN → sib = (h par).left) := by
  by_cases hl : (h par).left = some pN
  · exact ⟨(h par).right,
      spr_writes_rollback rT root fuel (get_sister_left hp hl),
      fun _ => rfl, fun hc => absurd hl hc⟩
  · have hr := hchild.resolve_left hl
    exact ⟨(h par).left,
      spr_writes_rollback rT root fuel (get_sister_right hp hr hl),
      fun hc => absurd hc hl, fun _ => rfl⟩

/-- Witness for C9 on the 5-node tree: prune node 3, sibling 4. -/
theorem spr_records_rollback_witness :
    ∃ sib, (pllmod_rtree_spr h5 3 1 (some 0) true 10).rbOf =
        some ⟨MoveKind.SPR, true, 3, sib⟩ ∧
      ((h5 2).left = some 3 → sib = (h5 2).right) ∧
      (¬ (h5 2).left = some 3 → sib = (h5 2).left) :=
  spr_records_rollback h5 3 1 (some 0) 10 2 rfl (Or.inl rfl)

/-- C10 (implicit): the rollback record is written before the prune is even
attempted, so when `pllmod_rtree_spr` returns failure from the prune or
regraft stage the caller-provided record has nonetheless been overwritten
with the full SPR record — it is not cleared or rolled back on failure. -/
theorem spr_failure_leaves_rollback (h : RHeap) (pN rT : Nat) (root : Option Nat)
    (fuel : Nat) (par : Nat) (e : TreeErr) (hp : (h pN).parent = some par)
    (hchild : (h par).left = some pN ∨ (h par).right = some pN)
    (hfail : (pllmod_rtree_spr h pN rT root true fuel).errOf = some e) :
    ∃ sib, (pllmod_rtree_spr h pN rT root true fuel).rbOf =
        some ⟨MoveKind.SPR, true, pN, sib⟩ ∧
      ((h par).left = some pN → sib = (h par).right) ∧
      (¬ (h par).left = some pN → sib = (h par).left) := by
  by_cases hl : (h par).left = some pN
  · exact ⟨(h par).right,
      spr_writes_rollback rT root fuel (get_sister_left hp hl),
      fun _ => rfl, fun hc => absurd hl hc⟩
  · have hr := hchild.resolve_left hl
    exact ⟨(h par).left,
      spr_writes_rollback rT root fuel (get_sister_right hp hr hl),
      fun hc => absurd hc hl, fun _ => rfl⟩

/-- Witness for C10: the 5-node SPR fails at the regraft stage (invalid-node
error), yet the rollback record is present and fully filled. -/
theorem spr_failure_leaves_rollback_witness :
    (pllmod_rtree_spr h5 3 1 (some 0) true 10).errOf = some TreeErr.invalidNode ∧
    ∃ sib, (pllmod_rtree_spr h5 3 1 (some 0) true 10).rbOf =
        some ⟨MoveKind.SPR, true, 3, sib⟩ ∧
      ((h5 2).left = some 3 → sib = (h5 2).right) ∧
      (¬ (h5 2).left = some 3 → sib = (h5 2).left) :=
  ⟨rfl, spr_failure_leaves_rollback h5 3 1 (some 0) 10 2 TreeErr.invalidNode rfl
    (Or.inl rfl) rfl⟩

theorem writeSlot_R_left (h : RHeap) (p : Nat) (v : Option Nat) (x : Nat) :
    ((writeSlot h (.R p) v) x).left = (h x).left := by
  rw [writeSlot_R_apply]
  by_cases hx : x = p
  · subst hx; simp
  · simp [hx]

theorem writeSlot_L_right (h : RHeap) (p : Nat) (v : Option Nat) (x : Nat) :
    ((writeSlot h (.L p) v) x).right = (h x).right := by
  rw [writeSlot_L_apply]
  by_cases hx : x = p
  · subst hx; simp
  · simp [hx]

theorem reach_avoid {h h' : RHeap} {ns : List Nat} {depth : Nat → Nat}
    (wf : WfTree h ns depth) {par s g : Nat}
    (hchar : ∀ x, (h' x).parent =
      if x = par then none else if x = s then some g else (h x).parent)
    (hdpar : depth par = depth g + 1) (hds : depth s = depth g + 2) :
    ∀ fuel x, x ∈ ns → depth x ≤ depth g → reachesUp h' fuel x par = false := by
  intro fuel
  induction fuel with
  | zero =>
    intro x hx hdx
    have hne : x ≠ par := by intro he; subst he; omega
    simp [reachesUp, hne]
  | succ k ih =>
    intro x hx hdx
    have hne : x ≠ par := by intro he; subst he; omega
    have hnes : x ≠ s := by intro he; subst he; omega
    have hpx : (h' x).parent = (h x).parent := by
      rw [hchar x, if_neg hne, if_neg hnes]
    cases hq : (h x).parent with
    | none => simp [reachesUp, hne, hpx, hq]
    | some q =>
      obtain ⟨hqmem, hdq, -⟩ := wf.parent_facts hx hq
      have hqg : depth q ≤ depth g := by omega
      simp [reachesUp, hne, hpx, hq, ih q hqmem hqg]

theorem prune_ok_spec {h : RHeap} {ns : List Nat} {depth : Nat → Nat}
    (wf : WfTree h ns depth) {n par : Nat} (hn : n ∈ ns)
    (hp : (h n).parent = some par) :
    ∃ r h', pllmod_rtree_prune h n = PruneRes.ok r h' ∧
      (h' par).parent = none ∧
      (((h' par).left = some n ∧ (h' par).right = none) ∨
       ((h' par).right = some n ∧ (h' par).left = none)) ∧
      (∀ g, (h par).parent = some g → r = g ∧
        ∀ fuel y, ((h' r).parent = some y ∨ (h' r).left = some y ∨
            (h' r).right = some y) →
          reachesUp h' fuel y par = false) ∧
      ((h par).parent = none →
        some r = sibValue h n par ∧ (h' r).parent = some par) := by
  obtain ⟨hparmem, hdn, hside⟩ := wf.parent_facts hn hp
  rcases hside with ⟨hl, hnr⟩ | ⟨hr, hnl⟩
  · -- n is the left child of par; the sister slot is the right cell of par
    have hgs := get_sister_left hp hl
    obtain ⟨-, -, s, hsmem, hrs, hsp⟩ := wf.left_facts hparmem hl
    have hds : depth s = depth par + 1 := (wf.parent_facts hsmem hsp).2.1
    have hsn : s ≠ n := by intro he; subst he; exact hnr hrs
    have hn_ne_s : n ≠ s := hsn.symm
    cases hgp : (h par).parent with
    | none =>
      have hcomp : pllmod_rtree_prune h n =
          PruneRes.ok s (writeSlot h (Slot.R par) none) := by
        unfold pllmod_rtree_prune
        rw [hp]
        simp only [hgs, hgp, readSlot, hrs]
      refine ⟨s, writeSlot h (Slot.R par) none, hcomp, ?_, ?_, ?_, ?_⟩
      · rw [writeSlot_parent]; exact hgp
      · left
        constructor
        · rw [writeSlot_R_left]; exact hl
        · rw [writeSlot_R_apply]; simp
      · intro g hg; exact Option.noConfusion hg
      · intro _
        constructor
        · unfold sibValue; rw [if_pos hl, hrs]
        · rw [writeSlot_parent]; exact hsp
    | some g =>
      obtain ⟨hgmem, hdpar, hgside⟩ := wf.parent_facts hparmem hgp
      have hpar_ne_g : par ≠ g := by intro he; rw [he] at hdpar; omega
      have hg_ne_par : g ≠ par := hpar_ne_g.symm
      have hn_ne_par : n ≠ par := by intro he; rw [he] at hdn; omega
      have hn_ne_g : n ≠ g := by intro he; rw [he] at hdn; omega
      have hs_ne_par : s ≠ par := by intro he; rw [he] at hds; omega
      have hs_ne_g : s ≠ g := by intro he; rw [he] at hds; omega
      have hg_ne_s : g ≠ s := hs_ne_g.symm
      have hds2 : depth s = depth g + 2 := by omega
      rcases hgside with ⟨hgl, hgnr⟩ | ⟨hgr, hgnl⟩
      · -- par is the left child of g
        have hgspar := get_sister_left hgp hgl
        set H := setParent (writeSlot (setParent (writeSlot h (Slot.L g) (some s))
          s (some g)) (Slot.R par) none) par none with hH
        have e0 : readSlot h (Slot.R par) = some s := hrs
        have e1 : readSlot (writeSlot h (Slot.L g) (some s)) (Slot.R par) = some s := by
          show ((writeSlot h (Slot.L g) (some s)) par).right = some s
          rw [writeSlot_L_right]; exact hrs
        have e2 : ((writeSlot h (Slot.L g) (some s)) n).parent = some par := by
          rw [writeSlot_parent]; exact hp
        have e3 : ((writeSlot h (Slot.L g) (some s)) par).parent = some g := by
          rw [writeSlot_parent]; exact hgp
        have e4 : ((writeSlot (setParent (writeSlot h (Slot.L g) (some s)) s (some g))
            (Slot.R par) none) n).parent = some par := by
          rw [writeSlot_parent, setParent_parent_other _ _ _ _ hn_ne_s,
            writeSlot_parent]
          exact hp
        have hcomp : pllmod_rtree_prune h n = PruneRes.ok g H := by
          rw [hH]
          unfold pllmod_rtree_prune
          rw [hp]
          simp only [hgs, hgp, hgspar, e0, e1, e2, e3, e4]
        have hchar : ∀ x, (H x).parent =
            if x = par then none else if x = s then some g else (h x).parent := by
          intro x
          rw [hH]
          by_cases hxp : x = par
          · subst hxp; rw [setParent_parent_same, if_pos rfl]
          · rw [setParent_parent_other _ _ _ _ hxp, writeSlot_parent, if_neg hxp]
            by_cases hxs : x = s
            · subst hxs; rw [setParent_parent_same, if_pos rfl]
            · rw [setParent_parent_other _ _ _ _ hxs, writeSlot_parent, if_neg hxs]
        have hreach := reach_avoid wf hchar hdpar hds2
        refine ⟨g, H, hcomp, ?_, ?_, ?_, ?_⟩
        · rw [hchar par, if_pos rfl]
        · left
          constructor
          · rw [hH, setParent_left, writeSlot_R_left, setParent_left,
              writeSlot_L_apply, if_neg hpar_ne_g]
            exact hl
          · rw [hH, setParent_right, writeSlot_R_apply]; simp
        · intro g' hg'
          injection hg' with he
          subst he
          refine ⟨rfl, ?_⟩
          have hGparent : (H g).parent = (h g).parent := by
            rw [hchar g, if_neg hg_ne_par, if_neg hg_ne_s]
          have hGleft : (H g).left = some s := by
            rw [hH, setParent_left, writeSlot_R_left, setParent_left,
              writeSlot_L_apply, if_pos rfl]
          have hGright : (H g).right = (h g).right := by
            rw [hH, setParent_right, writeSlot_R_apply, if_neg hg_ne_par,
              setParent_right, writeSlot_L_right]
          intro fuel y hy
          rcases hy with hy | hy | hy
          · rw [hGparent] at hy
            obtain ⟨hymem, hdgy, -⟩ := wf.parent_facts hgmem hy
            exact hreach fuel y hymem (by omega)
          · rw [hGleft] at hy
            injection hy with he
            subst he
            cases fuel with
            | zero => simp [reachesUp, hs_ne_par]
            | succ k =>
              have hps : (H s).parent = some g := by
                rw [hchar s, if_neg hs_ne_par, if_pos rfl]
              simp [reachesUp, hs_ne_par, hps, hreach k g hgmem (le_refl _)]
          · rw [hGright] at hy
            obtain ⟨hymem, hyp, -⟩ := wf.right_facts hgmem hy
            have hdy : depth y = depth g + 1 := (wf.parent_facts hymem hyp).2.1
            have hy_ne_par : y ≠ par := by intro he; subst he; exact hgnr hy
            have hy_ne_s : y ≠ s := by intro he; subst he; omega
            cases fuel with
            | zero => simp [reachesUp, hy_ne_par]
            | succ k =>
              have hpy : (H y).parent = some g := by
                rw [hchar y, if_neg hy_ne_par, if_neg hy_ne_s]; exact hyp
              simp [reachesUp, hy_ne_par, hpy, hreach k g hgmem (le_refl _)]
        · intro hnone; exact Option.noConfusion hnone
      · -- par is the right child of g
        have hgspar := get_sister_right hgp hgr hgnl
        set H := setParent (writeSlot (setParent (writeSlot h (Slot.R g) (some s))
          s (some g)) (Slot.R par) none) par none with hH
        have e0 : readSlot h (Slot.R par) = some s := hrs
        have e1 : readSlot (writeSlot h (Slot.R g) (some s)) (Slot.R par) = some s := by
          show ((writeSlot h (Slot.R g) (some s)) par).right = some s
          rw [writeSlot_R_apply, if_neg hpar_ne_g]; exact hrs
        have e2 : ((writeSlot h (Slot.R g) (some s)) n).parent = some par := by
          rw [writeSlot_parent]; exact hp
        have e3 : ((writeSlot h (Slot.R g) (some s)) par).parent = some g := by
          rw [writeSlot_parent]; exact hgp
        have e4 : ((writeSlot (setParent (writeSlot h (Slot.R g) (some s)) s (some g))
            (Slot.R par) none) n).parent = some par := by
          rw [writeSlot_parent, setParent_parent_other _ _ _ _ hn_ne_s,
            writeSlot_parent]
          exact hp
        have hcomp : pllmod_rtree_prune h n = PruneRes.ok g H := by
          rw [hH]
          unfold pllmod_rtree_prune
          rw [hp]
          simp only [hgs, hgp, hgspar, e0, e1, e2, e3, e4]
        have hchar : ∀ x, (H x).parent =
            if x = par then none else if x = s then some g else (h x).parent := by
          intro x
          rw [hH]
          by_cases hxp : x = par
          · subst hxp; rw [setParent_parent_same, if_pos rfl]
          · rw [setParent_parent_other _ _ _ _ hxp, writeSlot_parent, if_neg hxp]
            by_cases hxs : x = s
            · subst hxs; rw [setParent_parent_same, if_pos rfl]
            · rw [setParent_parent_other _ _ _ _ hxs, writeSlot_parent, if_neg hxs]
        have hreach := reach_avoid wf hchar hdpar hds2
        refine ⟨g, H, hcomp, ?_, ?_, ?_, ?_⟩
        · rw [hchar par, if_pos rfl]
        · left
          constructor
          · rw [hH, setParent_left, writeSlot_R_left, setParent_left,
              writeSlot_R_left]
            exact hl
          · rw [hH, setParent_right, writeSlot_R_apply]; simp
        · intro g' hg'
          injection hg' with he
          subst he
          refine ⟨rfl, ?_⟩
          have hGparent : (H g).parent = (h g).parent := by
            rw [hchar g, if_neg hg_ne_par, if_neg hg_ne_s]
          have hGright : (H g).right = some s := by
            rw [hH, setParent_right, writeSlot_R_apply, if_neg hg_ne_par,
              setParent_right, writeSlot_R_apply, if_pos rfl]
          have hGleft : (H g).left = (h g).left := by
            rw [hH, setParent_left, writeSlot_R_left, setParent_left,
              writeSlot_R_left]
          intro fuel y hy
          rcases hy with hy | hy | hy
          · rw [hGparent] at hy
            obtain ⟨hymem, hdgy, -⟩ := wf.parent_facts hgmem hy
            exact hreach fuel y hymem (by omega)
          · rw [hGleft] at hy
            obtain ⟨hymem, hyp, -⟩ := wf.left_facts hgmem hy
            have hdy : depth y = depth g + 1 := (wf.parent_facts hymem hyp).2.1
            have hy_ne_par : y ≠ par := by intro he; subst he; exact hgnl hy
            have hy_ne_s : y ≠ s := by intro he; subst he; omega
            cases fuel with
            | zero => simp [reachesUp, hy_ne_par]
            | succ k =>
              have hpy : (H y).parent = some g := by
                rw [hchar y, if_neg hy_ne_par, if_neg hy_ne_s]; exact hyp
              simp [reachesUp, hy_ne_par, hpy, hreach k g hgmem (le_refl _)]
          · rw [hGright] at hy
            injection hy with he
            subst he
            cases fuel with
            | zero => simp [reachesUp, hs_ne_par]
            | succ k =>
              have hps : (H s).parent = some g := by
                rw [hchar s, if_neg hs_ne_par, if_pos rfl]
              simp [reachesUp, hs_ne_par, hps, hreach k g hgmem (le_refl _)]
        · intro hnone; exact Option.noConfusion hnone
  · -- n is the right child of par; the sister slot is the left cell of par
    have hgs := get_sister_right hp hr hnl
    obtain ⟨-, -, s, hsmem, hls, hsp⟩ := wf.right_facts hparmem hr
    have hds : depth s = depth par + 1 := (wf.parent_facts hsmem hsp).2.1
    have hsn : s ≠ n := by intro he; subst he; exact hnl hls
    have hn_ne_s : n ≠ s := hsn.symm
    cases hgp : (h par).parent with
    | none =>
      have hcomp : pllmod_rtree_prune h n =
          PruneRes.ok s (writeSlot h (Slot.L par) none) := by
        unfold pllmod_rtree_prune
        rw [hp]
        simp only [hgs, hgp, readSlot, hls]
      refine ⟨s, writeSlot h (Slot.L par) none, hcomp, ?_, ?_, ?_, ?_⟩
      · rw [writeSlot_parent]; exact hgp
      · right
        constructor
        · rw [writeSlot_L_right]; exact hr
        · rw [writeSlot_L_apply]; simp
      · intro g hg; exact Option.noConfusion hg
      · intro _
        constructor
        · unfold sibValue; rw [if_neg hnl, hls]
        · rw [writeSlot_parent]; exact hsp
    | some g =>
      obtain ⟨hgmem, hdpar, hgside⟩ := wf.parent_facts hparmem hgp
      have hpar_ne_g : par ≠ g := by intro he; rw [he] at hdpar; omega
      have hg_ne_par : g ≠ par := hpar_ne_g.symm
      have hn_ne_par : n ≠ par := by intro he; rw [he] at hdn; omega
      have hn_ne_g : n ≠ g := by intro he; rw [he] at hdn; omega
      have hs_ne_par : s ≠ par := by intro he; rw [he] at hds; omega
      have hs_ne_g : s ≠ g := by intro he; rw [he] at hds; omega
      have hg_ne_s : g ≠ s := hs_ne_g.symm
      have hds2 : depth s = depth g + 2 := by omega
      rcases hgside with ⟨hgl, hgnr⟩ | ⟨hgr, hgnl⟩
      · -- par is the left child of g
        have hgspar := get_sister_left hgp hgl
        set H := setParent (writeSlot (setParent (writeSlot h (Slot.L g) (some s))
          s (some g)) (Slot.L par) none) par none with hH
        have e0 : readSlot h (Slot.L par) = some s := hls
        have e1 : readSlot (writeSlot h (Slot.L g) (some s)) (Slot.L par) = some s := by
          show ((writeSlot h (Slot.L g) (some s)) par).left = some s
          rw [writeSlot_L_apply, if_neg hpar_ne_g]; exact hls
        have e2 : ((writeSlot h (Slot.L g) (some s)) n).parent = some par := by
          rw [writeSlot_parent]; exact hp
        have e3 : ((writeSlot h (Slot.L g) (some s)) par).parent = some g := by
          rw [writeSlot_parent]; exact hgp
        have e4 : ((writeSlot (setParent (writeSlot h (Slot.L g) (some s)) s (some g))
            (Slot.L par) none) n).parent = some par := by
          rw [writeSlot_parent, setParent_parent_other _ _ _ _ hn_ne_s,
            writeSlot_parent]
          exact hp
        have hcomp : pllmod_rtree_prune h n = PruneRes.ok g H := by
          rw [hH]
          unfold pllmod_rtree_prune
          rw [hp]
          simp only [hgs, hgp, hgspar, e0, e1, e2, e3, e4]
        have hchar : ∀ x, (H x).parent =
            if x = par then none else if x = s then some g else (h x).parent := by
          intro x
          rw [hH]
          by_cases hxp : x = par
          · subst hxp; rw [setParent_parent_same, if_pos rfl]
          · rw [setParent_parent_other _ _ _ _ hxp, writeSlot_parent, if_neg hxp]
            by_cases hxs : x = s
            · subst hxs; rw [setParent_parent_same, if_pos rfl]
            · rw [setParent_parent_other _ _ _ _ hxs, writeSlot_parent, if_neg hxs]
        have hreach := reach_avoid wf hchar hdpar hds2
        refine ⟨g, H, hcomp, ?_, ?_, ?_, ?_⟩
        · rw [hchar par, if_pos rfl]
        · right
          constructor
          · rw [hH, setParent_right, writeSlot_L_right, setParent_right,
              writeSlot_L_right]
            exact hr
          · rw [hH, setParent_left, writeSlot_L_apply]; simp
        · intro g' hg'
          injection hg' with he
          subst he
          refine ⟨rfl, ?_⟩
          have hGparent : (H g).parent = (h g).parent := by
            rw [hchar g, if_neg hg_ne_par, if_neg hg_ne_s]
          have hGleft : (H g).left = some s := by
            rw [hH, setParent_left, writeSlot_L_apply, if_neg hg_ne_par,
              setParent_left, writeSlot_L_apply, if_pos rfl]
          have hGright : (H g).right = (h g).right := by
            rw [hH, setParent_right, writeSlot_L_right, setParent_right,
              writeSlot_L_right]
          intro fuel y hy
          rcases hy with hy | hy | hy
          · rw [hGparent] at hy
            obtain ⟨hymem, hdgy, -⟩ := wf.parent_facts hgmem hy
            exact hreach fuel y hymem (by omega)
          · rw [hGleft] at hy
            injection hy with he
            subst he
            cases fuel with
            | zero => simp [reachesUp, hs_ne_par]
            | succ k =>
              have hps : (H s).parent = some g := by
                rw [hchar s, if_neg hs_ne_par, if_pos rfl]
              simp [reachesUp, hs_ne_par, hps, hreach k g hgmem (le_refl _)]
          · rw [hGright] at hy
            obtain ⟨hymem, hyp, -⟩ := wf.right_facts hgmem hy
            have hdy : depth y = depth g + 1 := (wf.parent_facts hymem hyp).2.1
            have hy_ne_par : y ≠ par := by intro he; subst he; exact hgnr hy
            have hy_ne_s : y ≠ s := by intro he; subst he; omega
            cases fuel with
            | zero => simp [reachesUp, hy_ne_par]
            | succ k =>
              have hpy : (H y).parent = some g := by
                rw [hchar y, if_neg hy_ne_par, if_neg hy_ne_s]; exact hyp
              simp [reachesUp, hy_ne_par, hpy, hreach k g hgmem (le_refl _)]
        · intro hnone; exact Option.noConfusion hnone
      · -- par is the right child of g
        have hgspar := get_sister_right hgp hgr hgnl
        set H := setParent (writeSlot (setParent (writeSlot h (Slot.R g) (some s))
          s (some g)) (Slot.L par) none) par none with hH
        have e0 : readSlot h (Slot.L par) = some s := hls
        have e1 : readSlot (writeSlot h (Slot.R g) (some s)) (Slot.L par) = some s := by
          show ((writeSlot h (Slot.R g) (some s)) par).left = some s
          rw [writeSlot_R_left]; exact hls
        have e2 : ((writeSlot h (Slot.R g) (some s)) n).parent = some par := by
          rw [writeSlot_parent]; exact hp
        have e3 : ((writeSlot h (Slot.R g) (some s)) par).parent = some g := by
          rw [writeSlot_parent]; exact hgp
        have e4 : ((writeSlot (setParent (writeSlot h (Slot.R g) (some s)) s (some g))
            (Slot.L par) none) n).parent = some par := by
          rw [writeSlot_parent, setParent_parent_other _ _ _ _ hn_ne_s,
            writeSlot_parent]
          exact hp
        have hcomp : pllmod_rtree_prune h n = PruneRes.ok g H := by
          rw [hH]
          unfold pllmod_rtree_prune
          rw [hp]
          simp only [hgs, hgp, hgspar, e0, e1, e2, e3, e4]
        have hchar : ∀ x, (H x).parent =
            if x = par then none else if x = s then some g else (h x).parent := by
          intro x
          rw [hH]
          by_cases hxp : x = par
          · subst hxp; rw [setParent_parent_same, if_pos rfl]
          · rw [setParent_parent_other _ _ _ _ hxp, writeSlot_parent, if_neg hxp]
            by_cases hxs : x = s
            · subst hxs; rw [setParent_parent_same, if_pos rfl]
            · rw [setParent_parent_other _ _ _ _ hxs, writeSlot_parent, if_neg hxs]
        have hreach := reach_avoid wf hchar hdpar hds2
        refine ⟨g, H, hcomp, ?_, ?_, ?_, ?_⟩
        · rw [hchar par, if_pos rfl]
        · right
          constructor
          · rw [hH, setParent_right, writeSlot_L_right, setParent_right,
              writeSlot_R_apply, if_neg hpar_ne_g]
            exact hr
          · rw [hH, setParent_left, writeSlot_L_apply]; simp
        · intro g' hg'
          injection hg' with he
          subst he
          refine ⟨rfl, ?_⟩
          have hGparent : (H g).parent = (h g).parent := by
            rw [hchar g, if_neg hg_ne_par, if_neg hg_ne_s]
          have hGright : (H g).right = some s := by
            rw [hH, setParent_right, writeSlot_L_right, setParent_right,
              writeSlot_R_apply, if_pos rfl]
          have hGleft : (H g).left = (h g).left := by
            rw [hH, setParent_left, writeSlot_L_apply, if_neg hg_ne_par,
              setParent_left, writeSlot_R_left]
          intro fuel y hy
          rcases hy with hy | hy | hy
          · rw [hGparent] at hy
            obtain ⟨hymem, hdgy, -⟩ := wf.parent_facts hgmem hy
            exact hreach fuel y hymem (by omega)
          · rw [hGleft] at hy
            obtain ⟨hymem, hyp, -⟩ := wf.left_facts hgmem hy
            have hdy : depth y = depth g + 1 := (wf.parent_facts hymem hyp).2.1
            have hy_ne_par : y ≠ par := by intro he; subst he; exact hgnl hy
            have hy_ne_s : y ≠ s := by intro he; subst he; omega
            cases fuel with
            | zero => simp [reachesUp, hy_ne_par]
            | succ k =>
              have hpy : (H y).parent = some g := by
                rw [hchar y, if_neg hy_ne_par, if_neg hy_ne_s]; exact hyp
              simp [reachesUp, hy_ne_par, hpy, hreach k g hgmem (le_refl _)]
          · rw [hGright] at hy
            injection hy with he
            subst he
            cases fuel with
            | zero => simp [reachesUp, hs_ne_par]
            | succ k =>
              have hps : (H s).parent = some g := by
                rw [hchar s, if_neg hs_ne_par, if_pos rfl]
              simp [reachesUp, hs_ne_par, hps, hreach k g hgmem (le_refl _)]
        · intro hnone; exact Option.noConfusion hnone

/-- C3 (amended): for every node `n` with parent `par` in a well-formed tree,
the prune succeeds; `par` ends up parentless with single child `n` (the other
child cell empty); the returned node is the grandparent when `par` had a
parent, and in that case it carries no reference (parent or child) into the
pruned fragment (no referent of it can reach `par` by walking parent links);
when `par` was the root the returned node is `n`'s former sibling, which —
amending the original claim — retains its stale parent pointer to the
detached fragment node `par`. -/
theorem prune_postconditions {h : RHeap} {ns : List Nat} {depth : Nat → Nat}
    (wf : WfTree h ns depth) {n par : Nat} (hn : n ∈ ns)
    (hp : (h n).parent = some par) :
    ∃ r h', pllmod_rtree_prune h n = PruneRes.ok r h' ∧
      (h' par).parent = none ∧
      (((h' par).left = some n ∧ (h' par).right = none) ∨
       ((h' par).right = some n ∧ (h' par).left = none)) ∧
      (∀ g, (h par).parent = some g → r = g ∧
        ∀ fuel y, ((h' r).parent = some y ∨ (h' r).left = some y ∨
            (h' r).right = some y) →
          reachesUp h' fuel y par = false) ∧
      ((h par).parent = none →
        some r = sibValue h n par ∧ (h' r).parent = some par) :=
  prune_ok_spec wf hn hp

/-- Witness for the amended C3 on the 5-node tree, pruning node 3 under
parent 2. -/
theorem prune_postconditions_witness :
    ∃ r h', pllmod_rtree_prune h5 3 = PruneRes.ok r h' ∧ (h' 2).parent = none ∧
      (((h' 2).left = some 3 ∧ (h' 2).right = none) ∨
       ((h' 2).right = some 3 ∧ (h' 2).left = none)) := by
  obtain ⟨r, h', hok, hpar, hchild, -⟩ :=
    @prune_postconditions h5 ns5 depth5 (by decide) 3 2 (by decide) rfl
  exact ⟨r, h', hok, hpar, hchild⟩

/-- C8: on any heap, every error-returning path of `pllmod_rtree_prune` (root
rejection, sister lookup, grandparent-slot lookup) leaves the heap untouched;
and on a well-formed tree the prune fails — with the invalid-node error —
exactly when the node has no parent (any node with a parent prunes
successfully). -/
theorem prune_error_behavior (h : RHeap) (n : Nat) :
    (∀ e h', pllmod_rtree_prune h n = PruneRes.fail e h' → h' = h) ∧
    (∀ ns depth, WfTree h ns depth → n ∈ ns →
      ((h n).parent = none ↔
        pllmod_rtree_prune h n = PruneRes.fail TreeErr.invalidNode h) ∧
      ((h n).parent ≠ none →
        ∃ r h', pllmod_rtree_prune h n = PruneRes.ok r h')) := by
  constructor
  · intro e h' hE
    unfold pllmod_rtree_prune at hE
    repeat' first
      | split at hE
      | dsimp only [] at hE
    all_goals first
      | (exact PruneRes.noConfusion hE)
      | (injection hE with h1 h2; exact h2.symm)
  · intro ns depth wf hn
    constructor
    · constructor
      · intro hnone
        unfold pllmod_rtree_prune
        rw [hnone]
      · intro hE
        cases hq : (h n).parent with
        | none => rfl
        | some par =>
          obtain ⟨r, h', hok, -⟩ := prune_ok_spec wf hn hq
          rw [hok] at hE
          exact PruneRes.noConfusion hE
    · intro hne
      cases hq : (h n).parent with
      | none => exact absurd hq hne
      | some par =>
        obtain ⟨r, h', hok, -⟩ := prune_ok_spec wf hn hq
        exact ⟨r, h', hok⟩

/-- Witness for C8 on the 3-node tree: pruning the root 0 fails with the
invalid-node error and an unchanged heap; pruning child 1 succeeds. -/
theorem prune_error_behavior_witness :
    pllmod_rtree_prune h3 0 = PruneRes.fail TreeErr.invalidNode h3 ∧
    (∃ r h', pllmod_rtree_prune h3 1 = PruneRes.ok r h') :=
  ⟨((prune_error_behavior h3 0).2 ns3 depth3 (by decide) (by decide)).1.mp rfl,
   ((prune_error_behavior h3 1).2 ns3 depth3 (by decide) (by decide)).2 (by decide)⟩
